import Mathlib

/-!
Verification development for the crossgate-rs service mesh.

The definitions below are shallow embeddings of the Rust sources:

* `src/micro/src/lba.rs` — the load-balancer algorithm and address selection;
* `src/micro/src/register.rs` — the registry facade;
* `src/plugin/src/mongo.rs` — the MongoDB plugin's local cache maintenance;
* `src/net/src/http/proxy.rs` — the reverse-proxy URI rewrite and header
  transformation;
* `src/micro/src/api/mod.rs` — the API gateway routing decisions.

Stateful code is embedded by explicit state passing (the process-wide
round-robin counter, the cache map); machine randomness is abstracted as a
supplied draw; header maps are embedded as association lists over
ASCII-lowercased names, matching hyper's case-insensitive `HeaderMap`.
-/

/-- Embeds `LoadBalancerAlgorithm` from `src/micro/src/lba.rs`:
`RoundRobin | Random | Strict(Arc<String>)`. -/
inductive LoadBalancerAlgorithm where
  | RoundRobin : LoadBalancerAlgorithm
  | Random : LoadBalancerAlgorithm
  | Strict : String → LoadBalancerAlgorithm
deriving DecidableEq, Repr

/-- Embeds `LoadBalancerAlgorithm::select_address`.  The source guards on
`addresses.is_empty()` and returns `None`; otherwise `RoundRobin` performs
`COUNTER.fetch_add(1) % addresses.len()` on a process-wide atomic (embedded as
the explicit `counter` argument, returned incremented), `Random` indexes with a
uniform draw from `[0, n)` (abstracted as the supplied `rand`, reduced into
range), and `Strict(a)` returns `a` exactly when `a` occurs in `addresses`
(the source's `HashSet::contains`).  The result pairs the selected address with
the updated counter. -/
def select_address (lba : LoadBalancerAlgorithm) (addresses : List String)
    (counter rand : Nat) : Option String × Nat :=
  if addresses.isEmpty then (none, counter)
  else
    match lba with
    | .RoundRobin => (addresses.get? (counter % addresses.length), counter + 1)
    | .Random => (addresses.get? (rand % addresses.length), counter)
    | .Strict a => (if addresses.contains a then some a else none, counter)

/-- Iterated `RoundRobin` selection: the list of results of `k` consecutive
`select_address` calls starting from counter value `counter`, threading the
counter as the source's static atomic does. -/
def rr_run (addresses : List String) (counter : Nat) : Nat → List (Option String)
  | 0 => []
  | k + 1 =>
    let step := select_address .RoundRobin addresses counter 0
    step.1 :: rr_run addresses step.2 k

/-- ASCII lowercase of one character, as Rust's `to_ascii_lowercase`. -/
def asciiLowerChar (c : Char) : Char :=
  if 'A' ≤ c ∧ c ≤ 'Z' then Char.ofNat (c.toNat + 32) else c

/-- ASCII lowercase of a string, as Rust's `str::to_ascii_lowercase`.  Defined
over the character list so that concrete instances evaluate in the kernel. -/
def asciiLower (s : String) : String :=
  ⟨s.data.map asciiLowerChar⟩

/-- Splitting a character list at every occurrence of `c`, keeping empty
pieces: the semantics of Rust's `str::split(char)`. -/
def splitCharList (c : Char) : List Char → List (List Char)
  | [] => [[]]
  | x :: xs =>
    let r := splitCharList c xs
    if x = c then [] :: r
    else
      match r with
      | [] => [[x]]
      | h :: t => (x :: h) :: t

/-- Rust's `str::split(char)` over Lean strings. -/
def splitOnChar (s : String) (c : Char) : List String :=
  (splitCharList c s.data).map (fun l => ⟨l⟩)

/-- Rust's `str::trim` (whitespace stripped from both ends), on the character
list representation.  Rust trims Unicode whitespace; `Char.isWhitespace`
covers the ASCII subset relevant to header tokens. -/
def strTrim (s : String) : String :=
  ⟨(s.data.dropWhile Char.isWhitespace).reverse.dropWhile Char.isWhitespace |>.reverse⟩

/-- Whether a string ends with the character `c`: Rust's `ends_with(char)`. -/
def endsWithChar (s : String) (c : Char) : Bool :=
  s.data.getLast? == some c

/-- Removing the last character: the source's `chars().next_back(); as_str()`
pattern. -/
def dropLastChar (s : String) : String :=
  ⟨s.data.dropLast⟩

/-- Embeds `impl From<String> for LoadBalancerAlgorithm`
(`src/micro/src/lba.rs`): case-insensitive match on
`roundrobin`/`random`/`strict`, anything else falling back to `RoundRobin`;
`Strict` parses with an empty pinned address. -/
def LoadBalancerAlgorithm.ofString (s : String) : LoadBalancerAlgorithm :=
  let t := asciiLower s
  if t = "roundrobin" then .RoundRobin
  else if t = "random" then .Random
  else if t = "strict" then .Strict ""
  else .RoundRobin

theorem select_address_nil (lba : LoadBalancerAlgorithm) (c r : Nat) :
    select_address lba [] c r = (none, c) := by
  simp [select_address]

/-- An address list with an element is not detected empty. -/
theorem isEmpty_false_of_ne_nil {l : List String} (h : l ≠ []) :
    l.isEmpty = false := by
  cases l with
  | nil => exact absurd rfl h
  | cons a t => rfl

/-- C1: for every pinned address `a` and address list `addrs`, `Strict(a)`
selection returns `a` if and only if `a ∈ addrs`, and returns empty when
`a ∉ addrs`; and every algorithm returns empty on the empty address list. -/
theorem strict_select_iff_mem_and_empty_input_none :
    (∀ (a : String) (addrs : List String) (c r : Nat),
      (select_address (.Strict a) addrs c r).1 = some a ↔ a ∈ addrs) ∧
    (∀ (a : String) (addrs : List String) (c r : Nat),
      a ∉ addrs → (select_address (.Strict a) addrs c r).1 = none) ∧
    (∀ (lba : LoadBalancerAlgorithm) (c r : Nat),
      (select_address lba [] c r).1 = none) := by
  refine ⟨?_, ?_, ?_⟩
  · intro a addrs c r
    constructor
    · intro h
      cases he : addrs.isEmpty with
      | true => simp [select_address, he] at h
      | false =>
        by_cases hmem : a ∈ addrs
        · exact hmem
        · simp [select_address, he, hmem] at h
    · intro hmem
      have hne : addrs ≠ [] := by
        intro hnil; rw [hnil] at hmem; exact (List.not_mem_nil a) hmem
      simp [select_address, isEmpty_false_of_ne_nil hne, hmem]
  · intro a addrs c r hmem
    cases he : addrs.isEmpty with
    | true => simp [select_address, he]
    | false => simp [select_address, he, hmem]
  · intro lba c r
    simp [select_address]

/-- Witness for C1 at concrete inputs. -/
theorem strict_select_iff_mem_and_empty_input_none_witness :
    ((select_address (.Strict "10.0.0.2:80") ["10.0.0.1:80", "10.0.0.2:80"] 0 0).1
        = some "10.0.0.2:80") ∧
    ((select_address (.Strict "10.0.0.3:80") ["10.0.0.1:80", "10.0.0.2:80"] 0 0).1
        = none) := by
  constructor
  · exact (strict_select_iff_mem_and_empty_input_none.1
      "10.0.0.2:80" ["10.0.0.1:80", "10.0.0.2:80"] 0 0).2 (by decide)
  · exact strict_select_iff_mem_and_empty_input_none.2.1
      "10.0.0.3:80" ["10.0.0.1:80", "10.0.0.2:80"] 0 0 (by decide)

/-- Unfolding of `rr_run` as a map over call indices: starting from counter
`c`, the `i`-th consecutive round-robin call selects index `(c + i) mod n`. -/
theorem rr_run_eq_map_range (addrs : List String) (hne : addrs ≠ []) :
    ∀ (k c : Nat), rr_run addrs c k
      = (List.range k).map (fun i => addrs.get? ((c + i) % addrs.length))
  | 0, c => by simp [rr_run]
  | k + 1, c => by
    have ih := rr_run_eq_map_range addrs hne k (c + 1)
    simp only [rr_run, select_address, isEmpty_false_of_ne_nil hne, Bool.false_eq_true,
      if_false, ih, List.range_succ_eq_map, List.map_cons, List.map_map]
    congr 1
    apply List.map_congr_left
    intro i _
    have hadd : c + 1 + i = c + (i + 1) := by omega
    simp [Function.comp, hadd]

/-- Mapping `get?` over the index range of a list reproduces the list. -/
theorem map_get?_range {α : Type} (l : List α) :
    (List.range l.length).map (fun i => l.get? i) = l.map some := by
  induction l with
  | nil => simp
  | cons a t ih =>
    simp only [List.length_cons, List.range_succ_eq_map, List.map_cons, List.map_map,
      List.get?_cons_zero]
    congr 1

/-- C6: on a non-empty address list, a round-robin call increments the counter
and returns `addresses[(counter − 1) mod n]` for the post-increment counter
value; and a window of `n = addresses.length` consecutive calls returns a
permutation of the address list (each address, by position, exactly once). -/
theorem roundrobin_counter_formula_and_window (addrs : List String) (c r : Nat)
    (hne : addrs ≠ []) :
    ((select_address .RoundRobin addrs c r).2 = c + 1 ∧
     (select_address .RoundRobin addrs c r).1
       = addrs.get? (((select_address .RoundRobin addrs c r).2 - 1) % addrs.length)) ∧
    List.Perm (rr_run addrs c addrs.length) (addrs.map some) := by
  constructor
  · simp [select_address, isEmpty_false_of_ne_nil hne]
  · have h1 : rr_run addrs c addrs.length
        = (List.range addrs.length).map (fun i => addrs.get? ((c + i) % addrs.length)) :=
      rr_run_eq_map_range addrs hne _ c
    have h2 : (List.range addrs.length).map (fun i => addrs.get? ((c + i) % addrs.length))
        = (List.range addrs.length).map (fun i => (addrs.rotate c).get? i) := by
      apply List.map_congr_left
      intro i hi
      rw [List.mem_range] at hi
      rw [List.get?_rotate hi, Nat.add_comm i c]
    have h3 : (List.range addrs.length).map (fun i => (addrs.rotate c).get? i)
        = (addrs.rotate c).map some := by
      rw [← map_get?_range (addrs.rotate c), List.length_rotate]
    rw [h1, h2, h3]
    exact (List.rotate_perm addrs c).map some

/-- Witness for C6 at address list `["a", "b"]` and counter `5`. -/
theorem roundrobin_counter_formula_and_window_witness :
    (((select_address .RoundRobin ["a", "b"] 5 0).2 = 5 + 1 ∧
      (select_address .RoundRobin ["a", "b"] 5 0).1
        = (["a", "b"] : List String).get?
            (((select_address .RoundRobin ["a", "b"] 5 0).2 - 1)
              % (["a", "b"] : List String).length)) ∧
     List.Perm (rr_run ["a", "b"] 5 (["a", "b"] : List String).length)
       ((["a", "b"] : List String).map some)) :=
  roundrobin_counter_formula_and_window ["a", "b"] 5 0 (by decide)

/-- Embeds `plugin::ServiceContent` (`src/plugin/src/lib.rs`): the registration
record with logical service name, load-balancer tag, advertised address, and
kind (`1` web service, `2` backend service). -/
structure ServiceContent where
  service : String
  lba : String
  addr : String
  kind : Int
deriving DecidableEq, Repr

/-- Embeds `micro::Endpoint` (`src/micro/src/lib.rs`): the resolved ordered
address list of one logical service. -/
structure Endpoint where
  addr : List String
deriving DecidableEq, Repr

/-- Embeds `RegisterError` (`src/micro/src/register.rs`): `RegisterError` is
the registration failure (spec taxonomy `RegistrationFailed`), `ServiceError`
the lookup failure (spec taxonomy `ServiceNotFound`). -/
inductive RegisterError where
  | registrationFailed : String → RegisterError
  | serviceNotFound : String → RegisterError
deriving DecidableEq, Repr

/-- Embeds `Register::get_web_service` (`src/micro/src/register.rs`): the
backend call `plugin::get_web_service(name)` is abstracted as its result.  On
`Ok(contents)` the facade collects all addresses, takes the `lba` string of the
first entry when the list is non-empty (the empty string otherwise), and
returns `Ok((LoadBalancerAlgorithm::from(lba), Endpoint { addr }))`; only a
backend `Err` becomes the `ServiceError("service not found ")` failure. -/
def get_web_service (backend : Except String (List ServiceContent)) :
    Except RegisterError (LoadBalancerAlgorithm × Endpoint) :=
  match backend with
  | .ok contents =>
    let addrs := contents.map (fun c => c.addr)
    let lba := if contents.isEmpty then "" else (contents.headD ⟨"", "", "", 1⟩).lba
    .ok (LoadBalancerAlgorithm.ofString lba, ⟨addrs⟩)
  | .error _ => .error (.serviceNotFound "service not found ")

/-- The web-service entry built for one logical name in
`Register::register_web_service`: kind `1`, the derived address, and the
stringified load-balancer tag. -/
def mkWebEntry (name lba addr : String) : ServiceContent :=
  ⟨name, lba, addr, 1⟩

/-- The per-name registration loop of `Register::register_web_service`
(`src/micro/src/register.rs`): for each logical name, the backend `register`
call is issued with the kind-1 entry; the first failure aborts the loop with
`RegisterError::RegisterError` (`RegistrationFailed`).  The result also
collects the log of issued calls, in order. -/
def register_loop (backend : String → ServiceContent → Except String Unit)
    (lba addr : String) :
    List String → Except RegisterError Unit × List (String × ServiceContent)
  | [] => (.ok (), [])
  | n :: rest =>
    let entry := mkWebEntry n lba addr
    match backend n entry with
    | .error e => (.error (.registrationFailed e), [(n, entry)])
    | .ok _ =>
      let next := register_loop backend lba addr rest
      (next.1, (n, entry) :: next.2)

/-- Embeds `Register::register_web_service`: the service name is split on `,`
into logical names and each is registered with the derived address and lba
tag. -/
def register_web_service (svc_name lba addr : String)
    (backend : String → ServiceContent → Except String Unit) :
    Except RegisterError Unit × List (String × ServiceContent) :=
  register_loop backend lba addr (splitOnChar svc_name ',')

/-- Parsing the empty tag falls back to `RoundRobin`. -/
theorem ofString_empty_eq : LoadBalancerAlgorithm.ofString "" = .RoundRobin := by
  decide

/-- C4 counterexample: a backend answer of `Ok([])` (what every plugin returns
for an unknown key, e.g. `NonePlugin::get_web_service`) does not raise
`ServiceNotFound`; the facade returns `Ok` with the default `RoundRobin` tag
and an empty endpoint. -/
theorem get_web_service_empty_is_ok :
    get_web_service (.ok []) = .ok (.RoundRobin, ⟨[]⟩) ∧
    (get_web_service (.ok [])).isOk = true := by
  constructor
  · simp [get_web_service, ofString_empty_eq]
  · simp [get_web_service, Except.isOk, Except.toBool]

/-- C4 (amended): the facade raises `ServiceNotFound` exactly when the backend
call fails; a non-empty `Ok` result yields the LBA parsed from the first
entry's `lba` field and the endpoint of all addresses; an empty `Ok` result
yields `Ok(RoundRobin, empty endpoint)`. -/
theorem get_web_service_shape :
    (∀ e : String, get_web_service (.error e)
        = .error (.serviceNotFound "service not found ")) ∧
    (∀ (c : ServiceContent) (rest : List ServiceContent),
      get_web_service (.ok (c :: rest))
        = .ok (LoadBalancerAlgorithm.ofString c.lba,
            ⟨c.addr :: rest.map (fun x => x.addr)⟩)) ∧
    get_web_service (.ok []) = .ok (.RoundRobin, ⟨[]⟩) := by
  refine ⟨?_, ?_, by simp [get_web_service, ofString_empty_eq]⟩
  · intro e
    rfl
  · intro c rest
    simp [get_web_service]

/-- When every per-name backend call succeeds, the loop registers each name,
in order, and succeeds. -/
theorem register_loop_all_ok (backend : String → ServiceContent → Except String Unit)
    (lba addr : String) :
    ∀ names : List String,
      (∀ n ∈ names, backend n (mkWebEntry n lba addr) = .ok ()) →
      register_loop backend lba addr names
        = (.ok (), names.map (fun n => (n, mkWebEntry n lba addr)))
  | [], _ => rfl
  | n :: rest, h => by
    have hn := h n (List.mem_cons_self n rest)
    have ih := register_loop_all_ok backend lba addr rest
      (fun m hm => h m (List.mem_cons_of_mem n hm))
    simp [register_loop, hn, ih]

/-- When some per-name backend call fails, the loop fails with the
registration-failure error. -/
theorem register_loop_exists_fail (backend : String → ServiceContent → Except String Unit)
    (lba addr : String) :
    ∀ names : List String,
      (∃ n ∈ names, backend n (mkWebEntry n lba addr) ≠ .ok ()) →
      ∃ msg, (register_loop backend lba addr names).1
        = .error (.registrationFailed msg)
  | [], h => absurd h (by simp)
  | n :: rest, h => by
    cases hb : backend n (mkWebEntry n lba addr) with
    | error e =>
      refine ⟨e, ?_⟩
      simp [register_loop, hb]
    | ok u =>
      rcases h with ⟨m, hm, hfail⟩
      rcases List.mem_cons.mp hm with rfl | hmem
      · cases u
        exact absurd hb hfail
      · have ih := register_loop_exists_fail backend lba addr rest ⟨m, hmem, hfail⟩
        rcases ih with ⟨msg, hmsg⟩
        refine ⟨msg, ?_⟩
        simp [register_loop, hb, hmsg]

/-- C7: for a service name containing commas, registration splits the name on
`,` and issues one backend `register` call per logical name with the kind-1
(web) entry carrying the derived address and lba tag; if every call succeeds
the whole operation succeeds having called each name once, and if any call
fails the whole operation fails with the registration failure
(`RegistrationFailed`). -/
theorem register_web_service_split_and_fail (svc_name lba addr : String)
    (backend : String → ServiceContent → Except String Unit)
    (hcomma : ',' ∈ svc_name.data) :
    ((∀ n ∈ splitOnChar svc_name ',', backend n (mkWebEntry n lba addr) = .ok ()) →
      register_web_service svc_name lba addr backend
        = (.ok (), (splitOnChar svc_name ',').map (fun n => (n, mkWebEntry n lba addr)))) ∧
    ((∃ n ∈ splitOnChar svc_name ',', backend n (mkWebEntry n lba addr) ≠ .ok ()) →
      ∃ msg, (register_web_service svc_name lba addr backend).1
        = .error (.registrationFailed msg)) := by
  constructor
  · intro h
    exact register_loop_all_ok backend lba addr (splitOnChar svc_name ',') h
  · intro h
    exact register_loop_exists_fail backend lba addr (splitOnChar svc_name ',') h

/-- Witness for C7: the name `a,b` registers each of `a` and `b` once under a
backend that always succeeds. -/
theorem register_web_service_split_and_fail_witness :
    register_web_service "a,b" "RoundRobin" "10.0.0.7:80" (fun _ _ => .ok ())
      = (.ok (), [("a", mkWebEntry "a" "RoundRobin" "10.0.0.7:80"),
                  ("b", mkWebEntry "b" "RoundRobin" "10.0.0.7:80")]) := by
  have h := (register_web_service_split_and_fail "a,b" "RoundRobin" "10.0.0.7:80"
    (fun _ _ => .ok ()) (by decide)).1 (fun n _ => rfl)
  simpa using h

/-- Embeds `MongoContent` (`src/plugin/src/mongo.rs`): the persisted document,
an `_id` plus the flattened `ServiceContent`. -/
structure MongoContent where
  id : String
  content : ServiceContent
deriving DecidableEq, Repr

/-- Embeds the source's `impl PartialEq for MongoContent`: its `eq` is written
as `self.id.ne(&other.id)` — the comparison is inverted, so the derived `ne`
used by `update_cache` actually tests id equality. -/
def MongoContent.eq (a b : MongoContent) : Bool :=
  a.id != b.id

/-- The `ne` derived from the source's inverted `eq`: true exactly when the
two ids coincide. -/
def MongoContent.ne (a b : MongoContent) : Bool :=
  !(MongoContent.eq a b)

/-- The plugin's cache, a map from bucket key to the cached documents.  The
source's `HashMap<String, Vec<MongoContent>>` is embedded as a total function
with missing keys reading as `[]`; `contains_key` is embedded as bucket
non-emptiness, which agrees with the source on every reachable state and
yields identical bucket contents on both branches of `update_cache`. -/
def CacheMap := String → List MongoContent

/-- Embeds `MongodbPlugin::update_cache`: a missing bucket is created as the
singleton `[c]`; an existing bucket gets `c` pushed only when no element
satisfies `mc.ne(c)` — with the inverted equality, only when no element has
`c`'s id; otherwise the bucket is left unchanged. -/
def update_cache (cache : CacheMap) (key : String) (c : MongoContent) : CacheMap :=
  fun k =>
    if k = key then
      let v := cache key
      if v.isEmpty then [c]
      else if !(v.any (fun mc => MongoContent.ne mc c)) then v ++ [c]
      else v
    else cache k

/-- Embeds `MongodbPlugin::remove_cache`: every bucket retains only the
documents whose id differs from the deleted one. -/
def remove_cache (cache : CacheMap) (id : String) : CacheMap :=
  fun k => (cache k).filter (fun content => content.id != id)

/-- Embeds the bucket population step inside
`MongodbPlugin::list_mongo_content`: each fetched document replaces the bucket
under its key (the entry's service name, or its id when the service name is
empty) with the singleton `vec![doc]`. -/
def list_mongo_content_insert (cache : CacheMap) (doc : MongoContent) : CacheMap :=
  let key := if doc.content.service = "" then doc.id else doc.content.service
  fun k => if k = key then [doc] else cache k

/-- Embeds the change-stream event kinds dispatched by
`MongodbPlugin::cache_refresh`. -/
inductive OperationType where
  | insert
  | update
  | replace
  | delete
  | other
deriving DecidableEq, Repr

/-- Embeds the event dispatch of `MongodbPlugin::cache_refresh`:
Insert/Update/Replace events carrying a full document upsert it into the
bucket named by its service field; Delete events remove the document key's id
across the cache; anything else is ignored. -/
def cache_refresh_step (cache : CacheMap) (op : OperationType)
    (full_document : Option MongoContent) (document_key : Option String) : CacheMap :=
  match op with
  | .insert | .update | .replace =>
    match full_document with
    | some c => update_cache cache c.content.service c
    | none => cache
  | .delete =>
    match document_key with
    | some id => remove_cache cache id
    | none => cache
  | .other => cache

/-- C3 counterexample: an Update event whose entry shares the id `"id1"` with
a cached entry but carries a new address leaves the stale cached entry in
place — the cache update does not replace the same-id entry. -/
theorem cache_refresh_step_does_not_replace :
    cache_refresh_step
        (fun k => if k = "s" then [⟨"id1", ⟨"s", "RoundRobin", "10.0.0.1:80", 1⟩⟩] else [])
        .update (some ⟨"id1", ⟨"s", "RoundRobin", "10.0.0.2:80", 1⟩⟩) none "s"
      = [⟨"id1", ⟨"s", "RoundRobin", "10.0.0.1:80", 1⟩⟩] ∧
    (⟨"id1", ⟨"s", "RoundRobin", "10.0.0.2:80", 1⟩⟩ : MongoContent)
      ∉ cache_refresh_step
        (fun k => if k = "s" then [⟨"id1", ⟨"s", "RoundRobin", "10.0.0.1:80", 1⟩⟩] else [])
        .update (some ⟨"id1", ⟨"s", "RoundRobin", "10.0.0.2:80", 1⟩⟩) none "s" := by
  constructor
  · decide
  · decide

/-- C3 (amended): an Insert/Update/Replace event carrying entry `e` appends
`e` to the bucket for `e`'s service name when no cached entry with the same id
is present there, and otherwise leaves the bucket unchanged (the stale entry
is NOT replaced); buckets of other keys are untouched. -/
theorem cache_refresh_step_upsert (cache : CacheMap) (op : OperationType)
    (e : MongoContent)
    (hop : op = .insert ∨ op = .update ∨ op = .replace) :
    ((∀ mc ∈ cache e.content.service, mc.id ≠ e.id) →
      cache_refresh_step cache op (some e) none e.content.service
        = cache e.content.service ++ [e]) ∧
    ((∃ mc ∈ cache e.content.service, mc.id = e.id) →
      cache_refresh_step cache op (some e) none e.content.service
        = cache e.content.service) ∧
    (∀ k, k ≠ e.content.service →
      cache_refresh_step cache op (some e) none k = cache k) := by
  have hstep : cache_refresh_step cache op (some e) none
      = update_cache cache e.content.service e := by
    rcases hop with rfl | rfl | rfl <;> rfl
  rw [hstep]
  refine ⟨?_, ?_, ?_⟩
  · intro hno
    have hany : (cache e.content.service).any
        (fun mc => MongoContent.ne mc e) = false := by
      simp only [List.any_eq_false, MongoContent.ne, MongoContent.eq]
      intro mc hmc
      simpa using hno mc hmc
    cases hv : (cache e.content.service).isEmpty with
    | true =>
      have : cache e.content.service = [] := by
        simpa [List.isEmpty_iff] using hv
      simp [update_cache, this]
    | false =>
      simp [update_cache, hv, hany]
  · intro hyes
    rcases hyes with ⟨mc, hmc, hid⟩
    have hany : (cache e.content.service).any
        (fun mc => MongoContent.ne mc e) = true := by
      simp only [List.any_eq_true, MongoContent.ne, MongoContent.eq]
      exact ⟨mc, hmc, by simpa using hid⟩
    have hv : (cache e.content.service).isEmpty = false := by
      cases hcc : cache e.content.service with
      | nil => rw [hcc] at hmc; exact absurd hmc (List.not_mem_nil mc)
      | cons a t => rfl
    simp [update_cache, hv, hany]
  · intro k hk
    simp [update_cache, hk]

/-- Witness for C3 (amended) at a concrete Update event over an empty cache. -/
theorem cache_refresh_step_upsert_witness :
    cache_refresh_step (fun _ => []) .update
        (some ⟨"id1", ⟨"s", "RoundRobin", "10.0.0.1:80", 1⟩⟩) none "s"
      = [⟨"id1", ⟨"s", "RoundRobin", "10.0.0.1:80", 1⟩⟩] := by
  have h := (cache_refresh_step_upsert (fun _ => []) .update
      ⟨"id1", ⟨"s", "RoundRobin", "10.0.0.1:80", 1⟩⟩
      (Or.inr (Or.inl rfl))).1 (by intro mc hmc; exact absurd hmc (List.not_mem_nil mc))
  simpa using h

/-- The cache invariant: within each bucket, no two cached documents share an
id. -/
def cache_ids_nodup (cache : CacheMap) : Prop :=
  ∀ k, ((cache k).map (fun mc => mc.id)).Nodup

/-- C9: every cache-mutating operation of the MongoDB plugin — `update_cache`
on watch events, `remove_cache` on deletes, and the bucket population step of
`list_mongo_content` — preserves the invariant that no two cached entries in
one bucket share the same id. -/
theorem cache_mutations_preserve_ids_nodup (cache : CacheMap)
    (hinv : cache_ids_nodup cache) :
    (∀ (key : String) (c : MongoContent), cache_ids_nodup (update_cache cache key c)) ∧
    (∀ id : String, cache_ids_nodup (remove_cache cache id)) ∧
    (∀ doc : MongoContent, cache_ids_nodup (list_mongo_content_insert cache doc)) := by
  refine ⟨?_, ?_, ?_⟩
  · intro key c k
    by_cases hk : k = key
    · subst hk
      cases hv : (cache k).isEmpty with
      | true => simp [update_cache, hv]
      | false =>
        cases hany : (cache k).any (fun mc => MongoContent.ne mc c) with
        | true => simpa [update_cache, hv, hany] using hinv k
        | false =>
          have hnotmem : c.id ∉ (cache k).map (fun mc => mc.id) := by
            simp only [List.any_eq_false, MongoContent.ne, MongoContent.eq] at hany
            simp only [List.mem_map, not_exists]
            intro mc
            rintro ⟨hmc, hid⟩
            have hcontr := hany mc hmc
            simp [hid] at hcontr
          have hgoal : ((cache k ++ [c]).map (fun mc => mc.id)).Nodup := by
            rw [List.map_append, List.nodup_append]
            refine ⟨hinv k, List.nodup_singleton _, ?_⟩
            simpa [List.disjoint_right] using hnotmem
          simpa [update_cache, hv, hany] using hgoal
    · simpa [update_cache, hk] using hinv k
  · intro id k
    have hsub := (List.filter_sublist (cache k)
      (p := fun content => content.id != id)).map (fun mc => mc.id)
    simpa [remove_cache] using List.Nodup.sublist hsub (hinv k)
  · intro doc k
    by_cases hk : k = (if doc.content.service = "" then doc.id else doc.content.service)
    · simp [list_mongo_content_insert, hk]
    · simpa [list_mongo_content_insert, hk] using hinv k

/-- Witness for C9: the preserved invariant at a concrete insertion into the
empty cache. -/
theorem cache_mutations_preserve_ids_nodup_witness :
    cache_ids_nodup (update_cache (fun _ => []) "s"
      ⟨"id1", ⟨"s", "RoundRobin", "10.0.0.1:80", 1⟩⟩) :=
  (cache_mutations_preserve_ids_nodup (fun _ => []) (fun _ => List.nodup_nil)).1
    "s" ⟨"id1", ⟨"s", "RoundRobin", "10.0.0.1:80", 1⟩⟩

/-- Header maps (`hyper::HeaderMap`) embedded as ordered association lists;
names are normalized to ASCII lowercase at every operation, matching hyper's
case-insensitive header names. -/
abbrev Headers := List (String × String)

/-- Header lookup (`HeaderMap::get`): the first pair whose name matches. -/
def hget (h : Headers) (name : String) : Option String :=
  (h.find? (fun p => p.1 == asciiLower name)).map (fun p => p.2)

/-- Header removal (`HeaderMap::remove`): drops every pair with the name. -/
def hremove (h : Headers) (name : String) : Headers :=
  h.filter (fun p => p.1 != asciiLower name)

/-- Header insertion (`HeaderMap::insert`): replaces any existing value. -/
def hinsert (h : Headers) (name v : String) : Headers :=
  hremove h name ++ [(asciiLower name, v)]

/-- The hop-by-hop header list `HOP_HEADERS` of `src/net/src/http/proxy.rs`. -/
def HOP_HEADERS : List String :=
  ["connection", "te", "trailer", "keep-alive", "proxy-connection",
   "proxy-authenticate", "proxy-authorization", "transfer-encoding", "upgrade"]

/-- Embeds `remove_hop_headers`. -/
def remove_hop_headers (h : Headers) : Headers :=
  HOP_HEADERS.foldl (fun hs n => hremove hs n) h

/-- Embeds `remove_connection_headers`: every non-blank comma-separated token
of the current `Connection` value names a header to remove. -/
def remove_connection_headers (h : Headers) : Headers :=
  match hget h "connection" with
  | none => h
  | some v =>
    (splitOnChar v ',').foldl
      (fun hs name => if strTrim name ≠ "" then hremove hs (strTrim name) else hs) h

/-- The condition of `get_upgrade_type`: some comma-separated token of the
`Connection` value equals the header name `upgrade`; hyper's
`HeaderName`-to-string comparison is ASCII case-insensitive. -/
def connection_has_upgrade (h : Headers) : Bool :=
  match hget h "connection" with
  | some v => (splitOnChar v ',').any (fun e => asciiLower (strTrim e) == "upgrade")
  | none => false

/-- Embeds `get_upgrade_type` (`src/net/src/http/proxy.rs`): when the
`Connection` header lists the `upgrade` token, the `Upgrade` header's value is
the upgrade protocol. -/
def get_upgrade_type (h : Headers) : Option String :=
  if connection_has_upgrade h then hget h "upgrade" else none

/-- Embeds the `X-Forwarded-For` step at the end of `create_proxied_request`:
the vacant branch inserts the client IP; the occupied branch of the source
builds the appended string `<old>, <client_ip>` in a local but never inserts
it back, leaving the header map unchanged. -/
def add_forwarded_for (client_ip : String) (h : Headers) : Headers :=
  match hget h "x-forwarded-for" with
  | none => hinsert h "x-forwarded-for" client_ip
  | some v =>
    let _addr := v ++ ", " ++ client_ip
    h

/-- Embeds the header transformation of `create_proxied_request`
(`src/net/src/http/proxy.rs`): record whether `TE` lists `trailers`, overwrite
`Host` with the upstream host, strip hop-by-hop and `Connection`-listed
headers, restore `TE: trailers`, on an upgrade insert `Upgrade: <token>` and
`Connection: UPGRADE`, then apply the `X-Forwarded-For` step.  The URI rewrite
is embedded separately as `forward_uri`. -/
def create_proxied_request_headers (client_ip host : String)
    (upgrade_type : Option String) (headers : Headers) : Headers :=
  let contains_te_trailers :=
    match hget headers "te" with
    | some v => (splitOnChar v ',').any (fun e => asciiLower (strTrim e) == "trailers")
    | none => false
  let h1 := hinsert headers "host" host
  let h2 := remove_hop_headers h1
  let h3 := remove_connection_headers h2
  let h4 := if contains_te_trailers then hinsert h3 "te" "trailers" else h3
  let h5 :=
    match upgrade_type with
    | some v => hinsert (hinsert h4 "upgrade" v) "connection" "UPGRADE"
    | none => h4
  add_forwarded_for client_ip h5

/-- C2 evidence: with `X-Forwarded-For` occupied by `1.2.3.4` and client IP
`5.6.7.8`, the forwarded request still carries `1.2.3.4` — the appended value
`1.2.3.4, 5.6.7.8` demanded by the claim is built by the source but dropped;
the vacant branch does set the client IP. -/
theorem xff_occupied_value_not_appended :
    hget (create_proxied_request_headers "5.6.7.8" "upstream" none
        [("x-forwarded-for", "1.2.3.4")]) "x-forwarded-for" = some "1.2.3.4" ∧
    some "1.2.3.4" ≠ some ("1.2.3.4" ++ ", " ++ "5.6.7.8") ∧
    hget (create_proxied_request_headers "5.6.7.8" "upstream" none [])
        "x-forwarded-for" = some "5.6.7.8" := by
  refine ⟨by decide, by decide, by decide⟩

/-- Looking up the just-inserted name yields the inserted value. -/
theorem hget_hinsert_self (h : Headers) (n v : String) :
    hget (hinsert h n v) n = some v := by
  induction h with
  | nil => simp [hget, hinsert, hremove]
  | cons p t ih =>
    by_cases hp : p.1 = asciiLower n
    · simpa [hget, hinsert, hremove, hp] using ih
    · simpa [hget, hinsert, hremove, hp] using ih

/-- Finding under a predicate is unaffected by filtering with a predicate
that holds on every hit. -/
theorem find?_filter_of_imp {α} (p q : α → Bool) (l : List α)
    (h : ∀ x, p x = true → q x = true) :
    (l.filter q).find? p = l.find? p := by
  induction l with
  | nil => rfl
  | cons a t ih =>
    by_cases hq : q a = true
    · rw [List.filter_cons_of_pos hq]
      by_cases hp : p a = true
      · rw [List.find?_cons_of_pos _ hp, List.find?_cons_of_pos _ hp]
      · rw [List.find?_cons_of_neg _ (by simpa using hp),
          List.find?_cons_of_neg _ (by simpa using hp)]
        exact ih
    · rw [List.filter_cons_of_neg (by simpa using hq)]
      have hp : ¬ p a = true := fun hpa => hq (h a hpa)
      rw [List.find?_cons_of_neg _ (by simpa using hp)]
      exact ih

/-- Insertion under one name leaves lookups of a different name unchanged. -/
theorem hget_hinsert_other (h : Headers) (n v m : String)
    (hm : asciiLower m ≠ asciiLower n) :
    hget (hinsert h n v) m = hget h m := by
  unfold hget hinsert hremove
  rw [List.find?_append]
  have h2 : List.find? (fun p => p.1 == asciiLower m) [(asciiLower n, v)] = none := by
    rw [List.find?_cons_of_neg _ (by simpa using Ne.symm hm)]
    rfl
  rw [h2, Option.or_none]
  rw [find?_filter_of_imp]
  intro x hx
  have hxm : x.1 = asciiLower m := by simpa using hx
  simp [hxm, hm]

/-- The `X-Forwarded-For` step touches no other header. -/
theorem hget_add_forwarded_for_other (h : Headers) (ip m : String)
    (hm : asciiLower m ≠ "x-forwarded-for") :
    hget (add_forwarded_for ip h) m = hget h m := by
  unfold add_forwarded_for
  cases hget h "x-forwarded-for" with
  | none =>
    exact hget_hinsert_other h "x-forwarded-for" ip m (by simpa using hm)
  | some v => rfl

/-- When the headers carry `Connection: UPGRADE` and `Upgrade: v`, the
upgrade detection returns `v`: the token `UPGRADE` matches the `upgrade`
header name case-insensitively. -/
theorem get_upgrade_type_of_conn_upgrade (h : Headers) (v : String)
    (hconn : hget h "connection" = some "UPGRADE")
    (hup : hget h "upgrade" = some v) :
    get_upgrade_type h = some v := by
  have hc : connection_has_upgrade h = true := by
    simp only [connection_has_upgrade, hconn]
    decide
  simp [get_upgrade_type, hc, hup]

/-- After inserting the upgrade pair and running the forwarded-for step, the
upgrade detection recovers the token. -/
theorem upgrade_headers_roundtrip (h4 : Headers) (v ip : String) :
    get_upgrade_type (add_forwarded_for ip
      (hinsert (hinsert h4 "upgrade" v) "connection" "UPGRADE")) = some v := by
  have hconn : hget (add_forwarded_for ip
      (hinsert (hinsert h4 "upgrade" v) "connection" "UPGRADE")) "connection"
      = some "UPGRADE" := by
    rw [hget_add_forwarded_for_other _ _ _ (by decide)]
    exact hget_hinsert_self _ _ _
  have hup : hget (add_forwarded_for ip
      (hinsert (hinsert h4 "upgrade" v) "connection" "UPGRADE")) "upgrade"
      = some v := by
    rw [hget_add_forwarded_for_other _ _ _ (by decide)]
    rw [hget_hinsert_other _ _ _ _ (by decide)]
    exact hget_hinsert_self _ _ _
  exact get_upgrade_type_of_conn_upgrade _ v hconn hup

/-- C10: for every upgrade token `v`, client IP, upstream host and original
headers, applying `get_upgrade_type` to the headers produced by
`create_proxied_request` with `upgrade_type = Some v` returns `Some v`: the
inserted `Connection: UPGRADE` matches the `upgrade` token case-insensitively
and the `Upgrade` header carries `v`. -/
theorem create_proxied_request_upgrade_roundtrip (v ip host : String) (h : Headers) :
    get_upgrade_type (create_proxied_request_headers ip host (some v) h) = some v := by
  simp only [create_proxied_request_headers]
  exact upgrade_headers_roundtrip _ v ip

/-- One request query item as parsed in `forward_uri`: the part before the
first `=` is the key, the part after it the value (empty when absent). -/
def query_pair (el : String) : String × String :=
  let parts := splitOnChar el '='
  ((parts.get? 0).getD "", if parts.length > 1 then (parts.get? 1).getD "" else "")

/-- The merge step of `forward_uri`'s query loop: a request pair whose key is
absent from the forward-query keys is appended as `&k=v`. -/
def merge_step (forward_query_items : List String) (u : String)
    (kv : String × String) : String :=
  if !(forward_query_items.any (fun e => e == kv.1)) then
    u ++ "&" ++ kv.1 ++ "=" ++ kv.2
  else u

/-- The trailing-`&` strip at the end of `forward_uri`'s merge. -/
def strip_trailing_amp (s : String) : String :=
  if endsWithChar s '&' then dropLastChar s else s

/-- Embeds `forward_uri` (`src/net/src/http/proxy.rs`): split the forward URL
on `?` into base and query, trim one trailing `/` from the base, append the
request path, then append `?` and the queries — the request query verbatim
when the forward query is empty, otherwise the forward query followed by
every request pair whose key it does not contain, with a leftover trailing
`&` stripped.  The string-capacity precomputation of the source has no
semantic content and is omitted. -/
def forward_uri (forward_url req_path : String) (req_query : Option String) : String :=
  let split_url := splitOnChar forward_url '?'
  let base_url0 := (split_url.get? 0).getD ""
  let forward_url_query := (split_url.get? 1).getD ""
  let base_url := if endsWithChar base_url0 '/' then dropLastChar base_url0 else base_url0
  let url := base_url ++ req_path
  if forward_url_query != "" || (req_query.map (fun e => e != "")).getD false then
    let url := url ++ "?" ++ forward_url_query
    if forward_url_query = "" then url ++ (req_query.getD "")
    else
      let request_query_items := (splitOnChar (req_query.getD "") '&').map query_pair
      let forward_query_items := (splitOnChar forward_url_query '&').map
        (fun el => ((splitOnChar el '=').get? 0).getD "")
      let url := request_query_items.foldl (merge_step forward_query_items) url
      strip_trailing_amp url
  else url

/-- The claim's reading of `forward_uri`, followed literally: the query merge
always starts from the forward query and appends `&k=v` for every request
pair whose key is absent from it, also when the forward query is empty, then
strips one trailing `&`. -/
def forward_uri_claimed (forward_url req_path : String) (req_query : Option String) : String :=
  let split_url := splitOnChar forward_url '?'
  let base_url0 := (split_url.get? 0).getD ""
  let forward_url_query := (split_url.get? 1).getD ""
  let base_url := if endsWithChar base_url0 '/' then dropLastChar base_url0 else base_url0
  let request_query_items := (splitOnChar (req_query.getD "") '&').map query_pair
  let forward_query_items := (splitOnChar forward_url_query '&').map
    (fun el => ((splitOnChar el '=').get? 0).getD "")
  let merged := strip_trailing_amp
    (request_query_items.foldl (merge_step forward_query_items) forward_url_query)
  if forward_url_query != "" || (req_query.map (fun e => e != "")).getD false then
    base_url ++ req_path ++ "?" ++ merged
  else base_url ++ req_path

/-- The query merge of the amended claim, computed on the query strings
alone: start from the forward query, append `&k=v` for each request pair with
a fresh key, strip one trailing `&`. -/
def merge_queries (forward_url_query req_query_str : String) : String :=
  let request_query_items := (splitOnChar req_query_str '&').map query_pair
  let forward_query_items := (splitOnChar forward_url_query '&').map
    (fun el => ((splitOnChar el '=').get? 0).getD "")
  strip_trailing_amp
    (request_query_items.foldl (merge_step forward_query_items) forward_url_query)

/-- The amended specification of `forward_uri`: as the claim describes, except
that with an empty forward query the request query is appended verbatim after
`?`, and no `?` is appended when both queries are absent or empty. -/
def forward_uri_amended (forward_url req_path : String) (req_query : Option String) : String :=
  let split_url := splitOnChar forward_url '?'
  let base_url0 := (split_url.get? 0).getD ""
  let forward_url_query := (split_url.get? 1).getD ""
  let base_url := if endsWithChar base_url0 '/' then dropLastChar base_url0 else base_url0
  if forward_url_query != "" || (req_query.map (fun e => e != "")).getD false then
    if forward_url_query = "" then base_url ++ req_path ++ "?" ++ (req_query.getD "")
    else base_url ++ req_path ++ "?" ++ merge_queries forward_url_query (req_query.getD "")
  else base_url ++ req_path

/-- C5 counterexample: a forward URL without a query and a request carrying
`a=1` — the code appends the request query verbatim (`?a=1`), while the
claim's merge, starting from the empty forward query, would produce `?&a=1`. -/
theorem forward_uri_empty_forward_query_differs :
    forward_uri "http://h" "/p" (some "a=1") = "http://h/p?a=1" ∧
    forward_uri_claimed "http://h" "/p" (some "a=1") = "http://h/p?&a=1" ∧
    forward_uri "http://h" "/p" (some "a=1")
      ≠ forward_uri_claimed "http://h" "/p" (some "a=1") := by
  refine ⟨by decide, by decide, by decide⟩

/-- A non-empty string has a non-empty character list. -/
theorem data_ne_nil_of_ne_empty {s : String} (h : s ≠ "") : s.data ≠ [] := by
  intro hd
  exact h (by cases s; simp_all)

/-- Appending to a non-empty string on the left stays non-empty. -/
theorem append_ne_empty_left {a b : String} (ha : a ≠ "") : a ++ b ≠ "" := by
  intro hc
  apply data_ne_nil_of_ne_empty ha
  have hd := congrArg String.data hc
  simp at hd
  exact hd.1

/-- Whether an appended string ends with `c` depends only on its non-empty
second part. -/
theorem endsWithChar_append {a b : String} (hb : b ≠ "") (c : Char) :
    endsWithChar (a ++ b) c = endsWithChar b c := by
  unfold endsWithChar
  have hd : (a ++ b).data = a.data ++ b.data := by simp
  rw [hd, List.getLast?_append_of_ne_nil _ (data_ne_nil_of_ne_empty hb)]

/-- Dropping the last character of an appended string with non-empty second
part drops it from the second part. -/
theorem dropLastChar_append {a b : String} (hb : b ≠ "") :
    dropLastChar (a ++ b) = a ++ dropLastChar b := by
  unfold dropLastChar
  have hd : (a ++ b).data = a.data ++ b.data := by simp
  have hgoal : ((a ++ b).data.dropLast) = a.data ++ b.data.dropLast := by
    rw [hd, List.dropLast_append_of_ne_nil _ (data_ne_nil_of_ne_empty hb)]
  cases a with
  | mk da =>
    cases b with
    | mk db =>
      apply congrArg String.mk
      simpa using hgoal

/-- The trailing-`&` strip distributes over a prefix when the stripped part
is non-empty. -/
theorem strip_trailing_amp_append {a b : String} (hb : b ≠ "") :
    strip_trailing_amp (a ++ b) = a ++ strip_trailing_amp b := by
  unfold strip_trailing_amp
  rw [endsWithChar_append hb]
  cases he : endsWithChar b '&' with
  | true => simp [dropLastChar_append hb]
  | false => simp

/-- The query-merge fold factors out any prefix of its accumulator. -/
theorem foldl_merge_step_append (keys : List String) :
    ∀ (pairs : List (String × String)) (a b : String),
      pairs.foldl (merge_step keys) (a ++ b) = a ++ pairs.foldl (merge_step keys) b
  | [], a, b => rfl
  | kv :: t, a, b => by
    show t.foldl (merge_step keys) (merge_step keys (a ++ b) kv)
        = a ++ t.foldl (merge_step keys) (merge_step keys b kv)
    have hstep : merge_step keys (a ++ b) kv = a ++ merge_step keys b kv := by
      unfold merge_step
      cases hc : keys.any (fun e => e == kv.1) with
      | true => simp
      | false => simp [String.append_assoc]
    rw [hstep]
    exact foldl_merge_step_append keys t a (merge_step keys b kv)

/-- The query-merge fold keeps a non-empty accumulator non-empty. -/
theorem foldl_merge_step_ne_empty (keys : List String)
    (pairs : List (String × String)) {fq : String} (hfq : fq ≠ "") :
    pairs.foldl (merge_step keys) fq ≠ "" := by
  have h := foldl_merge_step_append keys pairs fq ""
  have hfe : fq ++ "" = fq := by simp
  rw [hfe] at h
  rw [h]
  exact append_ne_empty_left hfq

/-- Assembling the merged query after the `?` commutes with performing the
merge on the query alone, for a non-empty forward query. -/
theorem forward_uri_assembly (keys : List String) (pairs : List (String × String))
    (b fq : String) (hfq : fq ≠ "") :
    strip_trailing_amp (pairs.foldl (merge_step keys) (b ++ "?" ++ fq))
      = b ++ "?" ++ strip_trailing_amp (pairs.foldl (merge_step keys) fq) := by
  rw [foldl_merge_step_append keys pairs (b ++ "?") fq]
  exact strip_trailing_amp_append (foldl_merge_step_ne_empty keys pairs hfq)

/-- C5 (amended): `forward_uri` splits the forward URL on `?`, trims exactly
one trailing `/` from the base, appends the request path, and merges queries
as the claim describes whenever the forward query is non-empty; with an empty
forward query the request query is appended verbatim after `?` (and no `?`
appears when both queries are empty or absent). -/
theorem forward_uri_eq_amended (u p : String) (q : Option String) :
    forward_uri u p q = forward_uri_amended u p q := by
  simp only [forward_uri, forward_uri_amended, merge_queries]
  by_cases hcond : ((((splitOnChar u '?').get? 1).getD "" != "")
      || (q.map (fun e => e != "")).getD false) = true
  · rw [if_pos hcond, if_pos hcond]
    by_cases hfq : ((splitOnChar u '?').get? 1).getD "" = ""
    · rw [if_pos hfq, if_pos hfq, hfq]
      simp
    · rw [if_neg hfq, if_neg hfq]
      exact forward_uri_assembly _ _ _ _ hfq
  · rw [if_neg hcond, if_neg hcond]

/-- Embeds `extracting_service` (`src/micro/src/api/mod.rs`): the path is
split on `/`, the leading empty segment dropped, and the first two segments
joined as `/<a>/<b>`; fewer than two segments yield the empty name. -/
def extracting_service (path : String) : String :=
  let parts := (splitOnChar path '/').drop 1
  if parts.length < 2 then ""
  else "/" ++ (parts.get? 0).getD "" ++ "/" ++ (parts.get? 1).getD ""

/-- The observable outcome of the gateway's `intercept` routing core: the
landing page, an error response with status and body, or a forwarded call. -/
inductive GatewayResponse where
  | landing : GatewayResponse
  | response (status : Nat) (body : String) : GatewayResponse
  | forwarded (uri : String) : GatewayResponse
deriving DecidableEq, Repr

/-- Embeds the routing core of `intercept` (`src/micro/src/api/mod.rs`, after
the interceptor chain): root path serves the landing page; an empty extracted
service name yields 503; a present-but-empty `strict` header yields 400; the
registry resolutions are abstracted as the `resolve_by_lba`/`resolve`
results and address selection as `select`; a resolved endpoint without
addresses yields 503 with `<name> not found`; otherwise the request is
forwarded to `http://<selected address>`. -/
def intercept_route (path : String) (strict : Option String)
    (resolve_by_lba : String → LoadBalancerAlgorithm →
      Except Unit (LoadBalancerAlgorithm × Endpoint))
    (resolve : String → Except Unit (LoadBalancerAlgorithm × Endpoint))
    (select : LoadBalancerAlgorithm → List String → String) : GatewayResponse :=
  if path = "/" then .landing
  else
    let service_name := extracting_service path
    if service_name = "" then .response 503 "service unavailable or not found"
    else
      match strict with
      | some strict_address =>
        if strict_address = "" then .response 400 "strict address is empty"
        else
          match resolve_by_lba service_name (.Strict strict_address) with
          | .error _ => .response 500 ""
          | .ok (lba, endpoint) =>
            if endpoint.addr.isEmpty then
              .response 503 (service_name ++ " not found")
            else .forwarded ("http://" ++ select lba endpoint.addr)
      | none =>
        match resolve service_name with
        | .error _ => .response 500 ""
        | .ok (lba, endpoint) =>
          if endpoint.addr.length = 0 then
            .response 503 (service_name ++ " not found")
          else .forwarded ("http://" ++ select lba endpoint.addr)

/-- C8: a non-root path with fewer than two segments yields 503 with body
`service unavailable or not found`; a present `strict` header with empty
value yields 400 with body `strict address is empty`; and a resolved endpoint
with no addresses yields 503 with body `<name> not found`, on the strict path
and on the normal path alike. -/
theorem intercept_route_error_responses (path : String) (strict : Option String)
    (resolve_by_lba : String → LoadBalancerAlgorithm →
      Except Unit (LoadBalancerAlgorithm × Endpoint))
    (resolve : String → Except Unit (LoadBalancerAlgorithm × Endpoint))
    (select : LoadBalancerAlgorithm → List String → String) :
    (path ≠ "/" → ((splitOnChar path '/').drop 1).length < 2 →
      intercept_route path strict resolve_by_lba resolve select
        = .response 503 "service unavailable or not found") ∧
    (path ≠ "/" → extracting_service path ≠ "" → strict = some "" →
      intercept_route path strict resolve_by_lba resolve select
        = .response 400 "strict address is empty") ∧
    (∀ (s : String) (lba : LoadBalancerAlgorithm) (ep : Endpoint),
      path ≠ "/" → extracting_service path ≠ "" → strict = some s → s ≠ "" →
      resolve_by_lba (extracting_service path) (.Strict s) = .ok (lba, ep) →
      ep.addr = [] →
      intercept_route path strict resolve_by_lba resolve select
        = .response 503 (extracting_service path ++ " not found")) ∧
    (∀ (lba : LoadBalancerAlgorithm) (ep : Endpoint),
      path ≠ "/" → extracting_service path ≠ "" → strict = none →
      resolve (extracting_service path) = .ok (lba, ep) →
      ep.addr = [] →
      intercept_route path strict resolve_by_lba resolve select
        = .response 503 (extracting_service path ++ " not found")) := by
  refine ⟨?_, ?_, ?_, ?_⟩
  · intro hroot hlen
    have hsvc : extracting_service path = "" := by
      simp only [extracting_service]
      rw [if_pos hlen]
    simp [intercept_route, hroot, hsvc]
  · intro hroot hsvc hstrict
    subst hstrict
    simp [intercept_route, hroot, hsvc]
  · intro s lba ep hroot hsvc hstrict hs hres hep
    subst hstrict
    simp [intercept_route, hroot, hsvc, hs, hres, hep]
  · intro lba ep hroot hsvc hstrict hres hep
    subst hstrict
    simp [intercept_route, hroot, hsvc, hres, hep]

/-- Witness for C8 at concrete requests: the one-segment path `/a`, an empty
`strict` header on `/a/b`, and an empty resolved endpoint on `/a/b`. -/
theorem intercept_route_error_responses_witness :
    intercept_route "/a" none (fun _ _ => .error ()) (fun _ => .error ())
        (fun _ _ => "") = .response 503 "service unavailable or not found" ∧
    intercept_route "/a/b" (some "") (fun _ _ => .error ()) (fun _ => .error ())
        (fun _ _ => "") = .response 400 "strict address is empty" ∧
    intercept_route "/a/b" none (fun _ _ => .error ())
        (fun _ => .ok (.RoundRobin, ⟨[]⟩)) (fun _ _ => "")
      = .response 503 (extracting_service "/a/b" ++ " not found") := by
  refine ⟨?_, ?_, ?_⟩
  · exact (intercept_route_error_responses "/a" none (fun _ _ => .error ())
      (fun _ => .error ()) (fun _ _ => "")).1 (by decide) (by decide)
  · exact (intercept_route_error_responses "/a/b" (some "") (fun _ _ => .error ())
      (fun _ => .error ()) (fun _ _ => "")).2.1 (by decide) (by decide) rfl
  · exact (intercept_route_error_responses "/a/b" none (fun _ _ => .error ())
      (fun _ => .ok (.RoundRobin, ⟨[]⟩)) (fun _ _ => "")).2.2.2 .RoundRobin ⟨[]⟩
      (by decide) (by decide) rfl rfl rfl
